import Mathlib

/-!
A verification development for the GTiff multidimensional-array engine
described by the repository's specification, checked against the behavior
exhibited by the test files `autotest/gcore/gtiff_multidim.py` and
`autotest/ogr/ogr_gmlas.py`.  The engine itself (directory enumerator,
metadata codec, block/tile I/O, strided accessor, georeferencing adapter,
GMLAS feature builder) is modelled from the specification, and the claims
are settled against those models.
-/

namespace GTiffMDim

/-! ## Directory Enumerator (spec section 4.1)

Modelled from the spec: the C++ GTiff multidimensional driver is not in the
repository snapshot; only its test `gtiff_multidim.py` is.  The enumerator
lays out one directory (2D image plane) per tuple of slow-dimension
coordinates, iterating in nested-loop order with the first dimension as the
outermost loop. -/

/-- Modelled from the spec: the slow dimensions of a dimension-size sequence
are all but the two trailing (in-plane) axes. -/
def slowSizes (sizes : List Nat) : List Nat :=
  sizes.dropLast.dropLast

/-- Modelled from the spec: enumeration of all slow-coordinate tuples in
nested-loop (row-major) order, first dimension outermost and varying
slowest.  This is the order in which the write path creates directories. -/
def enumTuples : List Nat → List (List Nat)
  | [] => [[]]
  | d :: ds => (List.range d).flatMap (fun i => (enumTuples ds).map (fun t => i :: t))

/-- Modelled from the spec: mixed-radix decomposition of a linear directory
index into a slow-coordinate tuple, first dimension most significant. -/
def decomp : List Nat → Nat → List Nat
  | [], _ => []
  | _ :: ds, k => k / ds.prod :: decomp ds (k % ds.prod)

/-- Modelled from the spec: the total directory count is the product of the
slow-dimension sizes. -/
def dirCount (sizes : List Nat) : Nat :=
  (slowSizes sizes).prod

/-! ## Block/Tile I/O Engine (spec section 4.4)

Modelled from the spec: the driver's tile reader/writer is not in the
snapshot.  A plane of `rows x cols` samples is stored as a grid of blocks of
nominal size `bh x bw`; blocks overlapping the trailing edge are truncated
to the remaining extent. -/

/-- Modelled from the spec: number of blocks covering an extent of `n`
samples with block size `b` (ceiling division). -/
def numBlocks (n b : Nat) : Nat := (n + b - 1) / b

/-- Modelled from the spec: the data of the block at block coordinates
`(bi, bj)`, truncated at the trailing edge of the plane. -/
def blockData {α : Type} (v : Nat → Nat → α) (rows cols bh bw bi bj : Nat) :
    List (List α) :=
  (List.range (min bh (rows - bi * bh))).map (fun i =>
    (List.range (min bw (cols - bj * bw))).map (fun j =>
      v (bi * bh + i) (bj * bw + j)))

/-- Modelled from the spec: the write path persists one 2D plane as the full
grid of (possibly edge-truncated) blocks. -/
def writePlane {α : Type} (v : Nat → Nat → α) (rows cols bh bw : Nat) :
    List (List (List (List α))) :=
  (List.range (numBlocks rows bh)).map (fun bi =>
    (List.range (numBlocks cols bw)).map (fun bj =>
      blockData v rows cols bh bw bi bj))

/-- Modelled from the spec: the read path fetches one sample by locating its
block `(i / bh, j / bw)` and the offset `(i % bh, j % bw)` inside it. -/
def readCell {α : Type} (store : List (List (List (List α)))) (bh bw i j : Nat) :
    Option α :=
  (store[i / bh]?).bind (fun brow =>
    (brow[j / bw]?).bind (fun blk =>
      (blk[i % bh]?).bind (fun row => row[j % bw]?)))

/-- Modelled from the spec: a whole-plane read (what `ReadAsArray` with no
arguments does), assembled cell by cell through the block store. -/
def readPlane {α : Type} (store : List (List (List (List α)))) (bh bw rows cols : Nat) :
    List (List (Option α)) :=
  (List.range rows).map (fun i => (List.range cols).map (fun j => readCell store bh bw i j))

/-! ## N-dimensional write path: one directory per slow-coordinate tuple -/

/-- The size of the second-to-last (plane row) dimension. -/
def planeRows (sizes : List Nat) : Nat := sizes.getD (sizes.length - 2) 0

/-- The size of the last (plane column) dimension. -/
def planeCols (sizes : List Nat) : Nat := sizes.getD (sizes.length - 1) 0

/-- Modelled from the spec: the full write path of an N-D array (N >= 2).
The value at index tuple `t ++ [i, j]` lands in the directory created for
slow tuple `t`, directories being created in nested-loop order. -/
def writeArray {α : Type} (v : List Nat → α) (sizes : List Nat) (bh bw : Nat) :
    List (List (List (List (List α)))) :=
  (enumTuples (slowSizes sizes)).map (fun t =>
    writePlane (fun i j => v (t ++ [i, j])) (planeRows sizes) (planeCols sizes) bh bw)

/-! ## Strided Array Accessor (spec section 4.5)

Modelled from the spec: `read(origin, count, step)` with possibly negative
steps; the origin is the coordinate of the first emitted sample and the
caller never pre-negates it. -/

/-- Modelled from the spec: strided 2D read through the block store.  Result
sample `(m, n)` is taken at coordinate `(oy + m*sy, ox + n*sx)`. -/
def stridedRead {α : Type} (store : List (List (List (List α)))) (bh bw : Nat)
    (oy ox : Int) (cy cx : Nat) (sy sx : Int) : List (List (Option α)) :=
  (List.range cy).map (fun (m : Nat) => (List.range cx).map (fun (n : Nat) =>
    let i : Int := oy + (m : Int) * sy
    let j : Int := ox + (n : Int) * sx
    if 0 ≤ i ∧ 0 ≤ j then readCell store bh bw i.toNat j.toNat else none))

/-- The NumPy-equivalent strided slice `ref[o : o + c*s : s]` along each
axis, stated directly on the reference array (the comparison definition,
following the spec's words about the expected result). -/
def numpySlice2D {α : Type} (ref : Nat → Nat → α) (oy ox : Int) (cy cx : Nat)
    (sy sx : Int) : List (List (Option α)) :=
  (List.range cy).map (fun (m : Nat) => (List.range cx).map (fun (n : Nat) =>
    some (ref (oy + (m : Int) * sy).toNat (ox + (n : Int) * sx).toNat)))

/-- Full-extent read through the multidimensional API is the strided read at
origin 0 with unit steps. -/
def mdimFullRead {α : Type} (store : List (List (List (List α)))) (bh bw rows cols : Nat) :
    List (List (Option α)) :=
  stridedRead store bh bw 0 0 rows cols 1 1

/-! ## Metadata Codec (spec section 4.2)

Modelled from the spec: the codec that attaches a flat key/value record to
every directory.  Keys are modelled structurally; `MDKey.render` gives the
wire form `DIMENSION_<i>_<field>` / `VARIABLE_NAME` used by the tests. -/

/-- A structured metadata key: a per-dimension field of dimension `i` or the
global variable-name key. -/
inductive MDKey where
  | dim (i : Nat) (field : String)
  | variableName
deriving DecidableEq, Repr

/-- Wire rendering of a structured metadata key. -/
def MDKey.render : MDKey → String
  | .dim i field => s!"DIMENSION_{i}_{field}"
  | .variableName => "VARIABLE_NAME"

/-- Modelled from the spec: an axis descriptor held by the Dimension
Registry; the optional indexing variable carries a datatype name and its
values. -/
structure DimDesc where
  name : String
  size : Nat
  blockSize : Nat
  type : String
  direction : String
  indexing : Option (String × List Int)
deriving DecidableEq, Repr

/-- The slow (leading) dimension descriptors: all but the two trailing
in-plane axes. -/
def slowDims (dims : List DimDesc) : List DimDesc := dims.dropLast.dropLast

/-- Association lookup in a metadata record. -/
def mdLookup {κ ν : Type} [DecidableEq κ] (md : List (κ × ν)) (k : κ) : Option ν :=
  match md with
  | [] => none
  | (k', v) :: rest => if k' = k then some v else mdLookup rest k

/-- Modelled from the spec: the full per-dimension schema written only on
directory 0: name, size, block size, type and direction when set, and for a
small indexing variable (value count equal to the dimension size) its
datatype and the comma-joined value list. -/
def fullDimRecord (i : Nat) (d : DimDesc) : List (MDKey × String) :=
  [(MDKey.dim i "NAME", d.name), (MDKey.dim i "SIZE", toString d.size),
   (MDKey.dim i "BLOCK_SIZE", toString d.blockSize)]
  ++ (if d.type = "" then [] else [(MDKey.dim i "TYPE", d.type)])
  ++ (if d.direction = "" then [] else [(MDKey.dim i "DIRECTION", d.direction)])
  ++ (match d.indexing with
      | none => []
      | some (dt, vals) =>
        if vals.length = d.size then
          [(MDKey.dim i "DATATYPE", dt),
           (MDKey.dim i "VALUES", String.intercalate "," (vals.map toString))]
        else [])

/-- Modelled from the spec: the position-only record written per slow
dimension on every directory after the first: the zero-based index and the
indexing-variable value at that index. -/
def deltaDimRecord (i : Nat) (d : DimDesc) (idx : Nat) : List (MDKey × String) :=
  [(MDKey.dim i "NAME", d.name), (MDKey.dim i "IDX", toString idx)]
  ++ (match d.indexing with
      | none => []
      | some (_, vals) => [(MDKey.dim i "VAL", toString (vals.getD idx 0))])

/-- Concatenation of the full per-dimension schemas, numbering dimensions
from `i` upward. -/
def fullRecAux (i : Nat) : List DimDesc → List (MDKey × String)
  | [] => []
  | d :: rest => fullDimRecord i d ++ fullRecAux (i + 1) rest

/-- Concatenation of the position-only records, numbering slow dimensions
from `i` upward. -/
def deltaRecAux (i : Nat) : List (DimDesc × Nat) → List (MDKey × String)
  | [] => []
  | p :: rest => deltaDimRecord i p.1 p.2 ++ deltaRecAux (i + 1) rest

/-- The record of the first directory: full schema plus the variable name. -/
def fullRecord (dims : List DimDesc) (varName : String) : List (MDKey × String) :=
  fullRecAux 0 dims ++ [(MDKey.variableName, varName)]

/-- The record of a later directory at slow tuple `t`: position-only data
per slow dimension plus the variable name. -/
def deltaRecord (dims : List DimDesc) (t : List Nat) (varName : String) :
    List (MDKey × String) :=
  deltaRecAux 0 ((slowDims dims).zip t) ++ [(MDKey.variableName, varName)]

/-- Modelled from the spec: the sequence of metadata records over all
directories, in directory order: the full schema on directory 0, the
position-only record on every later one. -/
def metadataRecords (dims : List DimDesc) (varName : String) :
    List (List (MDKey × String)) :=
  match enumTuples (slowSizes (dims.map DimDesc.size)) with
  | [] => []
  | _ :: rest => fullRecord dims varName :: rest.map (fun t => deltaRecord dims t varName)

/-! ## Attribute serialization (spec section 4.2)

Modelled from the spec: attribute persistence is not in the snapshot; an
attribute value is flattened to one metadata string. -/

/-- The value held by a named attribute at serialization time. -/
inductive AttrValue where
  | int (v : Int)
  | text (s : String)
  | intVec (vs : List Int)
  | textVec (ss : List String)
  | unsetText
deriving DecidableEq, Repr

/-- Modelled from the spec: a scalar attribute serializes to its value, a
vector attribute to the comma-joined values, and a string attribute that was
created but never written to the literal token `null`. -/
def serializeAttr : AttrValue → String
  | .int v => toString v
  | .text s => s
  | .intVec vs => String.intercalate "," (vs.map toString)
  | .textVec ss => String.intercalate "," ss
  | .unsetText => "null"

/-- Modelled from the spec: persisting the attribute set writes one metadata
item per attribute. -/
def writeAttrs (attrs : List (String × AttrValue)) : List (String × String) :=
  attrs.map (fun p => (p.1, serializeAttr p.2))

/-- What the classic 2D reader's `GetMetadataItem` returns after reopen. -/
def getMetadataItem (md : List (String × String)) (k : String) : Option String :=
  mdLookup md k

/-- What the multidimensional reader's attribute `ReadAsString` returns
after reopen (both readers deserialize the same stored item). -/
def attrReadAsString (md : List (String × String)) (k : String) : Option String :=
  mdLookup md k

/-! ## Scale / offset / unit / nodata (spec section 4.2)

Modelled from the spec: these scalars map one-to-one onto the per-band 2D
raster equivalents; both readers recover exactly what was set. -/

/-- The radiometric scalars that can be set on a multidimensional array. -/
structure RasterScalars where
  scale : Option ℚ
  offset : Option ℚ
  unit : String
  nodata : Option ℚ
deriving DecidableEq, Repr

/-- Modelled from the spec: persisting the scalars to the per-band tags of
the directory (the 1:1 mapping of the spec). -/
def persistScalars (s : RasterScalars) : RasterScalars := s

/-- What the classic 2D reader's band reports. -/
def bandScalars (f : RasterScalars) : RasterScalars := f

/-- What the multidimensional reader reports. -/
def mdimScalars (f : RasterScalars) : RasterScalars := f

/-! ## Georeferencing Adapter (spec section 4.3)

Modelled from the spec: coordinates are modelled with exact rationals, so
the spec's floating-point tolerance becomes exact equality. -/

/-- A 2D affine geotransform `(originX, pixelWidth, rotX, originY, rotY,
pixelHeight)`. -/
structure GeoTransform where
  originX : ℚ
  pixelWidth : ℚ
  rotX : ℚ
  originY : ℚ
  rotY : ℚ
  pixelHeight : ℚ
deriving DecidableEq, Repr

/-- A uniformly spaced coordinate array `x_i = x0 + i * dx`. -/
def uniformCoords (x0 dx : ℚ) (n : Nat) : List ℚ :=
  (List.range n).map (fun (i : Nat) => x0 + (i : ℚ) * dx)

/-- Check that consecutive samples all differ by `d`. -/
def uniformSpaced : List ℚ → ℚ → Bool
  | [], _ => true
  | [_], _ => true
  | a :: b :: rest, d => decide (b - a = d) && uniformSpaced (b :: rest) d

/-- The spacing between the two first samples, when there are at least
two. -/
def spacingOf (xs : List ℚ) : Option ℚ :=
  match xs with
  | a :: b :: _ => some (b - a)
  | _ => none

/-- Modelled from the spec: derive the affine geotransform from the two
trailing coordinate arrays; the origin is extrapolated half a sample
outward from the first sample (cell-center to cell-corner convention), and
non-uniform spacing is refused. -/
def deriveGeoTransform (xs ys : List ℚ) : Option GeoTransform :=
  match spacingOf xs, spacingOf ys with
  | some dx, some dy =>
      if uniformSpaced xs dx && uniformSpaced ys dy then
        some ⟨xs.headD 0 - dx / 2, dx, 0, ys.headD 0 - dy / 2, 0, dy⟩
      else none
  | _, _ => none

/-- Modelled from the spec: regenerate a coordinate array from one axis of
the transform (cell-corner back to cell-center). -/
def regenCoords (origin pix : ℚ) (n : Nat) : List ℚ :=
  (List.range n).map (fun (i : Nat) => origin + pix / 2 + (i : ℚ) * pix)

/-- Modelled from the spec: classify axis type/direction when the transform
is diagonal (no rotation/shear). -/
def classifyAxes (gt : GeoTransform) : Option ((String × String) × (String × String)) :=
  if gt.rotX = 0 ∧ gt.rotY = 0 then
    some (("HORIZONTAL_X", "EAST"), ("HORIZONTAL_Y", "NORTH"))
  else none

/-! ## Compression / predictor (spec section 4.4)

Modelled from the spec: the compression algorithms themselves are external
pluggable codec backends assumed lossless; what belongs to this engine is
the predictor transform, the write-time-only nature of the tuning level, and
the COMPRESSION / PREDICTOR metadata reported on reopen. -/

/-- Horizontal differencing (predictor 2): each sample is replaced by its
difference with the previous sample of the row. -/
def hdiff : List Int → Int → List Int
  | [], _ => []
  | x :: xs, prev => (x - prev) :: hdiff xs x

/-- Inverse of horizontal differencing: running sums. -/
def hsum : List Int → Int → List Int
  | [], _ => []
  | d :: ds, prev => (prev + d) :: hsum ds (prev + d)

/-- Modelled from the spec: encode one block.  The tuning `level` is
write-time-only configuration of the (lossless, external) codec backend and
does not affect what is stored logically; predictor 2 applies horizontal
differencing before the codec. -/
def encodeBlock (_level : Option Nat) (predictor : Nat) (b : List Int) : List Int :=
  if predictor = 2 then hdiff b 0 else b

/-- Modelled from the spec: decode one block; the predictor is inverted
after the codec.  Decoding takes no tuning level. -/
def decodeBlock (predictor : Nat) (b : List Int) : List Int :=
  if predictor = 2 then hsum b 0 else b

/-- Modelled from the spec: what array creation persists about the chosen
codec: the codec name and the optional predictor (the tuning level is not
persisted). -/
structure CodecInfo where
  compression : String
  predictor : Option Nat
deriving DecidableEq, Repr

/-- Modelled from the spec: create the array with a requested codec,
optional predictor, and optional tuning level. -/
def createWithCodec (codec : String) (predictor : Option Nat) (_level : Option Nat) :
    CodecInfo :=
  ⟨codec, predictor⟩

/-- What the classic 2D reader reports in the IMAGE_STRUCTURE domain. -/
def imageStructureMetadata (f : CodecInfo) : List (String × String) :=
  [("COMPRESSION", f.compression)]
  ++ (match f.predictor with
      | some p => [("PREDICTOR", toString p)]
      | none => [])

/-- What the multidimensional reader reports as structural info. -/
def structuralInfo (f : CodecInfo) : List (String × String) :=
  imageStructureMetadata f

/-! ## GMLAS unexpected repeated element (spec section 9, design notes)

Modelled from the spec and the GMLAS test: the GMLAS reader itself is not in
the snapshot.  Reading a feature folds over the scanned (element path,
value) events; a schema-single-valued element seen again overwrites the
field (last write wins) and emits an `Unexpected element` error. -/

/-- One step of feature building: set the field, and add an error when the
field was already set. -/
def gmlasStep (acc : (String → Option String) × List String) (e : String × String) :
    (String → Option String) × List String :=
  match acc.1 e.1 with
  | some _ => (Function.update acc.1 e.1 (some e.2),
      acc.2 ++ [s!"Unexpected element {e.1}"])
  | none => (Function.update acc.1 e.1 (some e.2), acc.2)

/-- Modelled from the spec: build one feature from the ordered element
events, starting from all fields unset and no errors. -/
def processEvents (evts : List (String × String)) :
    (String → Option String) × List String :=
  evts.foldl gmlasStep ((fun _ => none), [])

/-! ## Block-size reporting (the two views of a directory)

Modelled from the spec and the tests: the writer stores the two trailing
block sizes as the in-plane tile width/height tags, and the full
per-dimension block-size list in directory 0's metadata.  The classic 2D
band reports `[tileWidth, tileHeight]`; the multidimensional array reports
the per-dimension list in dimension order. -/

/-- The per-directory structural tile information persisted by the writer,
together with the per-dimension block-size list kept in the metadata
record. -/
structure TiffDirInfo where
  tileWidth : Nat
  tileHeight : Nat
  dimBlockSizes : List Nat
deriving DecidableEq, Repr

/-- Modelled from the spec: persist the BLOCKSIZE creation option: the last
entry becomes the tile width, the second-to-last the tile height, and the
whole list is recorded per dimension. -/
def writeDirInfo (bs : List Nat) : TiffDirInfo :=
  ⟨bs.getD (bs.length - 1) 0, bs.getD (bs.length - 2) 0, bs⟩

/-- What the classic 2D reader's band `GetBlockSize` returns: block width
first, then block height. -/
def bandGetBlockSize (d : TiffDirInfo) : List Nat :=
  [d.tileWidth, d.tileHeight]

/-- What the multidimensional reader's `GetBlockSize` returns: the block
sizes in dimension order. -/
def mdimGetBlockSize (d : TiffDirInfo) : List Nat :=
  d.dimBlockSizes

/-- The attribute set written by the attributes test. -/
def testAttrs : List (String × AttrValue) :=
  [("att_text", AttrValue.text "foo"),
   ("att_text_null", AttrValue.unsetText),
   ("att_text_multiple", AttrValue.textVec ["foo", "bar"]),
   ("att_int", AttrValue.int 123456789),
   ("att_int_multiple", AttrValue.intVec [123456789, 23])]

/-! ## Claim theorems -/

/-- A 3D dimension list as in the 3D test: an indexed slow `dimZ` with
type/direction set, and plain in-plane `dimY`/`dimX`. -/
def dims3ex : List DimDesc :=
  [⟨"dimZ", 2, 1, "a", "b", some ("Int32", [1, 2])⟩,
   ⟨"dimY", 3, 2, "", "", none⟩,
   ⟨"dimX", 4, 3, "", "", none⟩]

/-- The repeated element path of the repeated-element test. -/
def gmlasKey : String := "myns:main_elt/myns:foo"

/-- The element events scanned by the repeated-element test. -/
def gmlasEvts : List (String × String) :=
  [(gmlasKey, "foo_first"), (gmlasKey, "foo_again")]

/-! ## Proofs -/

theorem flatMap_const_getElem? {α β : Type} (l : List α) (f : α → List β) (P : Nat)
    (hP : 0 < P) (hf : ∀ a ∈ l, (f a).length = P) (k : Nat) :
    (l.flatMap f)[k]? = l[k / P]?.bind (fun a => (f a)[k % P]?) := by
  induction l generalizing k with
  | nil => simp
  | cons a l ih =>
      have ha : (f a).length = P := hf a (List.mem_cons_self a l)
      have hl : ∀ b ∈ l, (f b).length = P := fun b hb => hf b (List.mem_cons_of_mem a hb)
      rw [List.flatMap_cons]
      by_cases hk : k < P
      · have hdiv : k / P = 0 := Nat.div_eq_of_lt hk
        have hmod : k % P = k := Nat.mod_eq_of_lt hk
        rw [List.getElem?_append_left (by rw [ha]; exact hk)]
        simp [hdiv, hmod]
      · have hkP : P ≤ k := Nat.le_of_not_lt hk
        have hdiv : k / P = (k - P) / P + 1 := Nat.div_eq_sub_div hP hkP
        have hmod : k % P = (k - P) % P := Nat.mod_eq_sub_mod hkP
        rw [List.getElem?_append_right (by rw [ha]; exact hkP), ha, ih hl]
        simp [hdiv, hmod]

theorem enumTuples_length (ds : List Nat) : (enumTuples ds).length = ds.prod := by
  induction ds with
  | nil => simp [enumTuples]
  | cons d ds ih =>
      simp [enumTuples, List.length_flatMap, Function.comp_def, ih, List.prod_cons,
        List.map_const', List.sum_replicate, smul_eq_mul]

theorem enumTuples_getElem? (ds : List Nat) (k : Nat) (hk : k < ds.prod) :
    (enumTuples ds)[k]? = some (decomp ds k) := by
  induction ds generalizing k with
  | nil =>
      have hk0 : k = 0 := by simpa using hk
      subst hk0
      simp [enumTuples, decomp]
  | cons d ds ih =>
      have hP : 0 < ds.prod := by
        rcases Nat.eq_zero_or_pos ds.prod with h0 | hpos
        · rw [List.prod_cons, h0, Nat.mul_zero] at hk; omega
        · exact hpos
      have hf : ∀ i ∈ List.range d, ((enumTuples ds).map (fun t => i :: t)).length = ds.prod := by
        intro i _
        simp [enumTuples_length]
      have hdlt : k / ds.prod < d := by
        apply Nat.div_lt_of_lt_mul
        simpa [List.prod_cons, Nat.mul_comm] using hk
      have hkP : k % ds.prod < ds.prod := Nat.mod_lt _ hP
      rw [enumTuples, flatMap_const_getElem? _ _ ds.prod hP hf k]
      rw [List.getElem?_range hdlt]
      simp [List.getElem?_map, ih _ hkP, decomp]

theorem div_lt_numBlocks {i n b : Nat} (hb : 0 < b) (hi : i < n) :
    i / b < numBlocks n b := by
  have hn : 1 ≤ n := by omega
  have h1 : numBlocks n b = (n - 1) / b + 1 := by
    unfold numBlocks
    have : n + b - 1 = (n - 1) + b := by omega
    rw [this, Nat.add_div_right _ hb]
  rw [h1]
  have : i / b ≤ (n - 1) / b := Nat.div_le_div_right (by omega)
  omega

theorem readCell_writePlane {α : Type} (v : Nat → Nat → α) (rows cols bh bw i j : Nat)
    (hbh : 0 < bh) (hbw : 0 < bw) (hi : i < rows) (hj : j < cols) :
    readCell (writePlane v rows cols bh bw) bh bw i j = some (v i j) := by
  have hbi : i / bh < numBlocks rows bh := div_lt_numBlocks hbh hi
  have hbj : j / bw < numBlocks cols bw := div_lt_numBlocks hbw hj
  have hdm_i : i / bh * bh + i % bh = i := by
    rw [Nat.mul_comm]; exact Nat.div_add_mod i bh
  have hdm_j : j / bw * bw + j % bw = j := by
    rw [Nat.mul_comm]; exact Nat.div_add_mod j bw
  have hmi : i % bh < min bh (rows - i / bh * bh) := by
    have h1 : i % bh < bh := Nat.mod_lt _ hbh
    omega
  have hmj : j % bw < min bw (cols - j / bw * bw) := by
    have h1 : j % bw < bw := Nat.mod_lt _ hbw
    omega
  unfold readCell writePlane blockData
  rw [List.getElem?_map, List.getElem?_range hbi]
  simp only [Option.map_some', Option.some_bind]
  rw [List.getElem?_map, List.getElem?_range hbj]
  simp only [Option.map_some', Option.some_bind]
  rw [List.getElem?_map, List.getElem?_range hmi]
  simp only [Option.map_some', Option.some_bind]
  rw [List.getElem?_map, List.getElem?_range hmj]
  simp only [Option.map_some']
  congr 2

theorem readPlane_writePlane {α : Type} (v : Nat → Nat → α) (rows cols bh bw : Nat)
    (hbh : 0 < bh) (hbw : 0 < bw) :
    readPlane (writePlane v rows cols bh bw) bh bw rows cols =
      (List.range rows).map (fun i => (List.range cols).map (fun j => some (v i j))) := by
  unfold readPlane
  apply List.map_congr_left
  intro i hi
  apply List.map_congr_left
  intro j hj
  exact readCell_writePlane v rows cols bh bw i j hbh hbw
    (List.mem_range.mp hi) (List.mem_range.mp hj)

theorem writeArray_length {α : Type} (v : List Nat → α) (sizes : List Nat) (bh bw : Nat) :
    (writeArray v sizes bh bw).length = dirCount sizes := by
  unfold writeArray dirCount
  rw [List.length_map, enumTuples_length]

theorem writeArray_getElem? {α : Type} (v : List Nat → α) (sizes : List Nat) (bh bw k : Nat)
    (hk : k < dirCount sizes) :
    (writeArray v sizes bh bw)[k]? =
      some (writePlane (fun i j => v (decomp (slowSizes sizes) k ++ [i, j]))
        (planeRows sizes) (planeCols sizes) bh bw) := by
  unfold writeArray
  rw [List.getElem?_map, enumTuples_getElem? _ _ hk]
  rfl

theorem stridedRead_writePlane {α : Type} (v : Nat → Nat → α) (rows cols bh bw : Nat)
    (oy ox : Int) (cy cx : Nat) (sy sx : Int)
    (hbh : 0 < bh) (hbw : 0 < bw)
    (hy : ∀ m : Nat, m < cy → 0 ≤ oy + m * sy ∧ oy + m * sy < rows)
    (hx : ∀ n : Nat, n < cx → 0 ≤ ox + n * sx ∧ ox + n * sx < cols) :
    stridedRead (writePlane v rows cols bh bw) bh bw oy ox cy cx sy sx =
      numpySlice2D v oy ox cy cx sy sx := by
  unfold stridedRead numpySlice2D
  apply List.map_congr_left
  intro m hm
  apply List.map_congr_left
  intro n hn
  obtain ⟨hy0, hy1⟩ := hy m (List.mem_range.mp hm)
  obtain ⟨hx0, hx1⟩ := hx n (List.mem_range.mp hn)
  rw [if_pos (And.intro hy0 hx0)]
  apply readCell_writePlane v rows cols bh bw _ _ hbh hbw
  · omega
  · omega

theorem mdimFullRead_writePlane {α : Type} (v : Nat → Nat → α) (rows cols bh bw : Nat)
    (hbh : 0 < bh) (hbw : 0 < bw) :
    mdimFullRead (writePlane v rows cols bh bw) bh bw rows cols =
      (List.range rows).map (fun i => (List.range cols).map (fun j => some (v i j))) := by
  unfold mdimFullRead
  rw [stridedRead_writePlane v rows cols bh bw 0 0 rows cols 1 1 hbh hbw
    (fun m hm => ⟨by omega, by omega⟩)
    (fun n hn => ⟨by omega, by omega⟩)]
  unfold numpySlice2D
  apply List.map_congr_left
  intro m hm
  apply List.map_congr_left
  intro n hn
  congr 2 <;> simp

theorem mdLookup_append_of_notin {κ ν : Type} [DecidableEq κ]
    (xs ys : List (κ × ν)) (k : κ) (h : ∀ p ∈ xs, p.1 ≠ k) :
    mdLookup (xs ++ ys) k = mdLookup ys k := by
  induction xs with
  | nil => simp
  | cons p xs ih =>
      obtain ⟨k', v⟩ := p
      have hk' : k' ≠ k := h (k', v) (List.mem_cons_self _ _)
      simp only [List.cons_append, mdLookup, if_neg hk']
      exact ih (fun q hq => h q (List.mem_cons_of_mem _ hq))

theorem mdLookup_append_left {κ ν : Type} [DecidableEq κ]
    (xs ys : List (κ × ν)) (k : κ) (v : ν) (h : mdLookup xs k = some v) :
    mdLookup (xs ++ ys) k = some v := by
  induction xs with
  | nil => simp [mdLookup] at h
  | cons p xs ih =>
      obtain ⟨k', v'⟩ := p
      by_cases hk : k' = k
      · simp only [mdLookup, if_pos hk] at h
        simp only [List.cons_append, mdLookup, if_pos hk]
        exact h
      · simp only [mdLookup, if_neg hk] at h
        simp only [List.cons_append, mdLookup, if_neg hk]
        exact ih h

theorem metadataRecords_zero (dims : List DimDesc) (varName : String)
    (h : 0 < (slowSizes (dims.map DimDesc.size)).prod) :
    (metadataRecords dims varName)[0]? = some (fullRecord dims varName) := by
  have hne : enumTuples (slowSizes (dims.map DimDesc.size)) ≠ [] := by
    intro hnil
    have := enumTuples_length (slowSizes (dims.map DimDesc.size))
    rw [hnil] at this
    simp at this
    omega
  unfold metadataRecords
  rcases he : enumTuples (slowSizes (dims.map DimDesc.size)) with _ | ⟨t0, rest⟩
  · exact absurd he hne
  · simp

theorem metadataRecords_pos (dims : List DimDesc) (varName : String) (k : Nat)
    (hk : k + 1 < (slowSizes (dims.map DimDesc.size)).prod) :
    (metadataRecords dims varName)[k + 1]? =
      some (deltaRecord dims (decomp (slowSizes (dims.map DimDesc.size)) (k + 1)) varName) := by
  have hget := enumTuples_getElem? (slowSizes (dims.map DimDesc.size)) (k + 1) hk
  unfold metadataRecords
  rcases he : enumTuples (slowSizes (dims.map DimDesc.size)) with _ | ⟨t0, rest⟩
  · rw [he] at hget; simp at hget
  · rw [he] at hget
    simp only [List.getElem?_cons_succ] at hget
    simp only [List.getElem?_cons_succ, List.getElem?_map, hget, Option.map_some']

theorem mdLookup_eq_none_of_forall {κ ν : Type} [DecidableEq κ]
    (xs : List (κ × ν)) (k : κ) (h : ∀ p ∈ xs, p.1 ≠ k) :
    mdLookup xs k = none := by
  induction xs with
  | nil => rfl
  | cons p xs ih =>
      obtain ⟨k', v⟩ := p
      simp only [mdLookup, if_neg (h (k', v) (List.mem_cons_self _ _))]
      exact ih (fun q hq => h q (List.mem_cons_of_mem _ hq))

theorem mdLookup_append {κ ν : Type} [DecidableEq κ] (xs ys : List (κ × ν)) (k : κ) :
    mdLookup (xs ++ ys) k = (mdLookup xs k).or (mdLookup ys k) := by
  induction xs with
  | nil => simp [mdLookup]
  | cons p xs ih =>
      obtain ⟨k', v⟩ := p
      by_cases hk : k' = k
      · simp [mdLookup, if_pos hk]
      · simp [mdLookup, if_neg hk, ih]

theorem fullDimRecord_keys (i : Nat) (d : DimDesc) (key : MDKey)
    (h : key ∈ (fullDimRecord i d).map Prod.fst) :
    ∃ f, f ∈ (["NAME", "SIZE", "BLOCK_SIZE", "TYPE", "DIRECTION", "DATATYPE",
      "VALUES"] : List String) ∧ key = MDKey.dim i f := by
  unfold fullDimRecord at h
  rcases hidx : d.indexing with _ | ⟨dt, vals⟩ <;> rw [hidx] at h
  · by_cases h1 : d.type = "" <;> by_cases h2 : d.direction = "" <;>
      simp only [h1, h2, if_pos, if_neg, if_true, if_false, List.append_nil,
        List.map_append, List.mem_append, List.map_cons, List.map_nil,
        List.mem_cons, List.not_mem_nil, or_false, ite_true, ite_false] at h <;>
      simp [h1, h2] at h ⊢ <;> tauto
  · by_cases h1 : d.type = "" <;> by_cases h2 : d.direction = "" <;>
      by_cases h3 : vals.length = d.size <;>
      simp [h1, h2, h3] at h ⊢ <;> tauto

theorem deltaDimRecord_keys (i : Nat) (d : DimDesc) (idx : Nat) (key : MDKey)
    (h : key ∈ (deltaDimRecord i d idx).map Prod.fst) :
    ∃ f, f ∈ (["NAME", "IDX", "VAL"] : List String) ∧ key = MDKey.dim i f := by
  unfold deltaDimRecord at h
  rcases hidx : d.indexing with _ | ⟨dt, vals⟩ <;> rw [hidx] at h <;>
    simp at h ⊢ <;> tauto

theorem fullRecAux_keys (i : Nat) (ds : List DimDesc) (key : MDKey)
    (h : key ∈ (fullRecAux i ds).map Prod.fst) :
    ∃ j f, i ≤ j ∧ j < i + ds.length ∧
      f ∈ (["NAME", "SIZE", "BLOCK_SIZE", "TYPE", "DIRECTION", "DATATYPE",
        "VALUES"] : List String) ∧ key = MDKey.dim j f := by
  induction ds generalizing i with
  | nil => simp [fullRecAux] at h
  | cons d ds ih =>
      unfold fullRecAux at h
      rw [List.map_append, List.mem_append] at h
      rcases h with h | h
      · obtain ⟨f, hf, hk⟩ := fullDimRecord_keys i d key h
        exact ⟨i, f, Nat.le_refl _, by simp only [List.length_cons]; omega, hf, hk⟩
      · obtain ⟨j, f, hij, hjlt, hf, hk⟩ := ih (i + 1) h
        exact ⟨j, f, by omega, by simp only [List.length_cons]; omega, hf, hk⟩

theorem deltaRecAux_keys (i : Nat) (ps : List (DimDesc × Nat)) (key : MDKey)
    (h : key ∈ (deltaRecAux i ps).map Prod.fst) :
    ∃ j f, i ≤ j ∧ j < i + ps.length ∧
      f ∈ (["NAME", "IDX", "VAL"] : List String) ∧ key = MDKey.dim j f := by
  induction ps generalizing i with
  | nil => simp [deltaRecAux] at h
  | cons p ps ih =>
      unfold deltaRecAux at h
      rw [List.map_append, List.mem_append] at h
      rcases h with h | h
      · obtain ⟨f, hf, hk⟩ := deltaDimRecord_keys i p.1 p.2 key h
        exact ⟨i, f, Nat.le_refl _, by simp only [List.length_cons]; omega, hf, hk⟩
      · obtain ⟨j, f, hij, hjlt, hf, hk⟩ := ih (i + 1) h
        exact ⟨j, f, by omega, by simp only [List.length_cons]; omega, hf, hk⟩

theorem fullRecAux_lookup (ds : List DimDesc) (i j : Nat) (d : DimDesc) (f : String)
    (hj : ds[j]? = some d) :
    mdLookup (fullRecAux i ds) (MDKey.dim (i + j) f) =
      mdLookup (fullDimRecord (i + j) d) (MDKey.dim (i + j) f) := by
  induction ds generalizing i j with
  | nil => simp at hj
  | cons d0 ds ih =>
      cases j with
      | zero =>
          simp only [List.getElem?_cons_zero, Option.some.injEq] at hj
          subst hj
          have hrest : mdLookup (fullRecAux (i + 1) ds) (MDKey.dim (i + 0) f) = none := by
            apply mdLookup_eq_none_of_forall
            intro p hp
            have hkey : p.1 ∈ (fullRecAux (i + 1) ds).map Prod.fst :=
              List.mem_map_of_mem Prod.fst hp
            obtain ⟨j', f', hij', _, _, hk⟩ := fullRecAux_keys (i + 1) ds p.1 hkey
            rw [hk]
            intro hc
            injection hc with h1 h2
            omega
          show mdLookup (fullDimRecord i d0 ++ fullRecAux (i + 1) ds) _ = _
          rw [mdLookup_append, hrest, Option.or_none]
          simp
      | succ j' =>
          simp only [List.getElem?_cons_succ] at hj
          have hskip : ∀ p ∈ fullDimRecord i d0, p.1 ≠ MDKey.dim (i + (j' + 1)) f := by
            intro p hp
            have hkey : p.1 ∈ (fullDimRecord i d0).map Prod.fst :=
              List.mem_map_of_mem Prod.fst hp
            obtain ⟨f', _, hk⟩ := fullDimRecord_keys i d0 p.1 hkey
            rw [hk]
            intro hc
            injection hc with h1 h2
            omega
          show mdLookup (fullDimRecord i d0 ++ fullRecAux (i + 1) ds) _ = _
          rw [mdLookup_append_of_notin _ _ _ hskip]
          have := ih (i + 1) j' hj
          have harith : i + 1 + j' = i + (j' + 1) := by omega
          rw [harith] at this
          exact this

theorem deltaRecAux_lookup (ps : List (DimDesc × Nat)) (i j : Nat) (p0 : DimDesc × Nat)
    (f : String) (hj : ps[j]? = some p0) :
    mdLookup (deltaRecAux i ps) (MDKey.dim (i + j) f) =
      mdLookup (deltaDimRecord (i + j) p0.1 p0.2) (MDKey.dim (i + j) f) := by
  induction ps generalizing i j with
  | nil => simp at hj
  | cons q ps ih =>
      cases j with
      | zero =>
          simp only [List.getElem?_cons_zero, Option.some.injEq] at hj
          subst hj
          have hrest : mdLookup (deltaRecAux (i + 1) ps) (MDKey.dim (i + 0) f) = none := by
            apply mdLookup_eq_none_of_forall
            intro p hp
            have hkey : p.1 ∈ (deltaRecAux (i + 1) ps).map Prod.fst :=
              List.mem_map_of_mem Prod.fst hp
            obtain ⟨j', f', hij', _, _, hk⟩ := deltaRecAux_keys (i + 1) ps p.1 hkey
            rw [hk]
            intro hc
            injection hc with h1 h2
            omega
          show mdLookup (deltaDimRecord i q.1 q.2 ++ deltaRecAux (i + 1) ps) _ = _
          rw [mdLookup_append, hrest, Option.or_none]
          simp
      | succ j' =>
          simp only [List.getElem?_cons_succ] at hj
          have hskip : ∀ p ∈ deltaDimRecord i q.1 q.2, p.1 ≠ MDKey.dim (i + (j' + 1)) f := by
            intro p hp
            have hkey : p.1 ∈ (deltaDimRecord i q.1 q.2).map Prod.fst :=
              List.mem_map_of_mem Prod.fst hp
            obtain ⟨f', _, hk⟩ := deltaDimRecord_keys i q.1 q.2 p.1 hkey
            rw [hk]
            intro hc
            injection hc with h1 h2
            omega
          show mdLookup (deltaDimRecord i q.1 q.2 ++ deltaRecAux (i + 1) ps) _ = _
          rw [mdLookup_append_of_notin _ _ _ hskip]
          have := ih (i + 1) j' hj
          have harith : i + 1 + j' = i + (j' + 1) := by omega
          rw [harith] at this
          exact this

theorem fullRecord_varName (dims : List DimDesc) (varName : String) :
    mdLookup (fullRecord dims varName) MDKey.variableName = some varName := by
  unfold fullRecord
  rw [mdLookup_append]
  have h0 : mdLookup (fullRecAux 0 dims) MDKey.variableName = none := by
    apply mdLookup_eq_none_of_forall
    intro p hp
    have hkey : p.1 ∈ (fullRecAux 0 dims).map Prod.fst := List.mem_map_of_mem Prod.fst hp
    obtain ⟨j', f', _, _, _, hk⟩ := fullRecAux_keys 0 dims p.1 hkey
    rw [hk]
    intro hc
    exact MDKey.noConfusion hc
  rw [h0]
  rfl

theorem deltaRecord_varName (dims : List DimDesc) (t : List Nat) (varName : String) :
    mdLookup (deltaRecord dims t varName) MDKey.variableName = some varName := by
  unfold deltaRecord
  rw [mdLookup_append]
  have h0 : mdLookup (deltaRecAux 0 ((slowDims dims).zip t)) MDKey.variableName = none := by
    apply mdLookup_eq_none_of_forall
    intro p hp
    have hkey : p.1 ∈ (deltaRecAux 0 ((slowDims dims).zip t)).map Prod.fst :=
      List.mem_map_of_mem Prod.fst hp
    obtain ⟨j', f', _, _, _, hk⟩ := deltaRecAux_keys 0 _ p.1 hkey
    rw [hk]
    intro hc
    exact MDKey.noConfusion hc
  rw [h0]
  rfl

theorem fullDimRecord_lookups (i : Nat) (d : DimDesc) :
    mdLookup (fullDimRecord i d) (MDKey.dim i "NAME") = some d.name ∧
    mdLookup (fullDimRecord i d) (MDKey.dim i "SIZE") = some (toString d.size) ∧
    mdLookup (fullDimRecord i d) (MDKey.dim i "BLOCK_SIZE") = some (toString d.blockSize) ∧
    (d.type ≠ "" → mdLookup (fullDimRecord i d) (MDKey.dim i "TYPE") = some d.type) ∧
    (d.direction ≠ "" →
      mdLookup (fullDimRecord i d) (MDKey.dim i "DIRECTION") = some d.direction) ∧
    (∀ dt vals, d.indexing = some (dt, vals) → vals.length = d.size →
      mdLookup (fullDimRecord i d) (MDKey.dim i "DATATYPE") = some dt ∧
      mdLookup (fullDimRecord i d) (MDKey.dim i "VALUES") =
        some (String.intercalate "," (vals.map toString))) := by
  unfold fullDimRecord
  refine ⟨by simp [mdLookup], by simp [mdLookup], by simp [mdLookup], ?_, ?_, ?_⟩
  · intro h1
    simp [mdLookup, h1]
  · intro h2
    by_cases h1 : d.type = "" <;> simp [mdLookup, h1, h2]
  · intro dt vals hiv hlen
    by_cases h1 : d.type = "" <;> by_cases h2 : d.direction = "" <;>
      rw [hiv] <;> constructor <;> simp [mdLookup, h1, h2, hlen]

theorem deltaDimRecord_lookups (i : Nat) (d : DimDesc) (idx : Nat) :
    mdLookup (deltaDimRecord i d idx) (MDKey.dim i "NAME") = some d.name ∧
    mdLookup (deltaDimRecord i d idx) (MDKey.dim i "IDX") = some (toString idx) ∧
    (∀ dt vals, d.indexing = some (dt, vals) →
      mdLookup (deltaDimRecord i d idx) (MDKey.dim i "VAL") =
        some (toString (vals.getD idx 0))) := by
  unfold deltaDimRecord
  rcases hidx : d.indexing with _ | ⟨dt0, vals0⟩ <;>
    refine ⟨by simp [mdLookup], by simp [mdLookup], ?_⟩
  · intro dt vals hiv; exact absurd hiv (by simp)
  · intro dt vals hiv
    simp only [Option.some.injEq, Prod.mk.injEq] at hiv
    obtain ⟨hdt, hvals⟩ := hiv
    subst hvals
    simp [mdLookup]

theorem fullRecord_dim_lookup (dims : List DimDesc) (varName : String) (j : Nat)
    (d : DimDesc) (f : String) (hj : dims[j]? = some d) :
    mdLookup (fullRecord dims varName) (MDKey.dim j f) =
      mdLookup (fullDimRecord j d) (MDKey.dim j f) := by
  unfold fullRecord
  rw [mdLookup_append]
  have htail : mdLookup [(MDKey.variableName, varName)] (MDKey.dim j f) = none := by
    simp [mdLookup]
  rw [htail, Option.or_none]
  have := fullRecAux_lookup dims 0 j d f hj
  simpa using this

theorem deltaRecord_dim_lookup (dims : List DimDesc) (t : List Nat) (varName : String)
    (j : Nat) (d : DimDesc) (idx : Nat) (f : String)
    (hd : (slowDims dims)[j]? = some d) (ht : t[j]? = some idx) :
    mdLookup (deltaRecord dims t varName) (MDKey.dim j f) =
      mdLookup (deltaDimRecord j d idx) (MDKey.dim j f) := by
  have hzip : ((slowDims dims).zip t)[j]? = some (d, idx) :=
    List.getElem?_zip_eq_some.mpr ⟨hd, ht⟩
  unfold deltaRecord
  rw [mdLookup_append]
  have htail : mdLookup [(MDKey.variableName, varName)] (MDKey.dim j f) = none := by
    simp [mdLookup]
  rw [htail, Option.or_none]
  have := deltaRecAux_lookup ((slowDims dims).zip t) 0 j (d, idx) f hzip
  simpa using this

theorem mdLookup_writeAttrs (attrs : List (String × AttrValue)) (k : String) (v : AttrValue)
    (hmem : (k, v) ∈ attrs) (hnd : (attrs.map Prod.fst).Nodup) :
    mdLookup (writeAttrs attrs) k = some (serializeAttr v) := by
  induction attrs with
  | nil => simp at hmem
  | cons p attrs ih =>
      obtain ⟨k', v'⟩ := p
      rw [List.map_cons, List.nodup_cons] at hnd
      obtain ⟨hk', hnd'⟩ := hnd
      rcases List.mem_cons.mp hmem with hhead | htail
      · injection hhead with e1 e2
        subst e1
        subst e2
        simp [writeAttrs, mdLookup]
      · have hne : k' ≠ k := by
          intro he
          apply hk'
          rw [he]
          exact List.mem_map.mpr ⟨(k, v), htail, rfl⟩
        simp only [writeAttrs, List.map_cons, mdLookup, if_neg hne]
        exact ih htail hnd'

theorem uniformCoords_cons (x0 dx : ℚ) (n : Nat) :
    uniformCoords x0 dx (n + 1) = x0 :: uniformCoords (x0 + dx) dx n := by
  unfold uniformCoords
  rw [List.range_succ_eq_map, List.map_cons, List.map_map]
  congr 1
  · simp
  · apply List.map_congr_left
    intro i _
    simp [Function.comp]
    ring

theorem uniformSpaced_uniformCoords (x0 dx : ℚ) (n : Nat) :
    uniformSpaced (uniformCoords x0 dx n) dx = true := by
  induction n generalizing x0 with
  | zero => simp [uniformCoords, uniformSpaced]
  | succ n ih =>
      rw [uniformCoords_cons]
      cases n with
      | zero => simp [uniformCoords, uniformSpaced]
      | succ m =>
          rw [uniformCoords_cons]
          have ihm := ih (x0 + dx)
          rw [uniformCoords_cons] at ihm
          unfold uniformSpaced
          rw [ihm]
          simp

theorem spacingOf_uniformCoords (x0 dx : ℚ) (n : Nat) (hn : 2 ≤ n) :
    spacingOf (uniformCoords x0 dx n) = some dx := by
  obtain ⟨m, rfl⟩ : ∃ m, n = m + 2 := ⟨n - 2, by omega⟩
  rw [uniformCoords_cons, uniformCoords_cons]
  have he : x0 + dx - x0 = dx := by ring
  show some (x0 + dx - x0) = some dx
  rw [he]

theorem headD_uniformCoords (x0 dx : ℚ) (n : Nat) (hn : 0 < n) :
    (uniformCoords x0 dx n).headD 0 = x0 := by
  obtain ⟨m, rfl⟩ : ∃ m, n = m + 1 := ⟨n - 1, by omega⟩
  rw [uniformCoords_cons]
  rfl

theorem deriveGeoTransform_uniform (x0 dx y0 dy : ℚ) (nx ny : Nat)
    (hnx : 2 ≤ nx) (hny : 2 ≤ ny) :
    deriveGeoTransform (uniformCoords x0 dx nx) (uniformCoords y0 dy ny) =
      some ⟨x0 - dx / 2, dx, 0, y0 - dy / 2, 0, dy⟩ := by
  have hx := uniformSpaced_uniformCoords x0 dx nx
  have hy := uniformSpaced_uniformCoords y0 dy ny
  unfold deriveGeoTransform
  rw [spacingOf_uniformCoords x0 dx nx hnx, spacingOf_uniformCoords y0 dy ny hny]
  simp only [hx, hy, Bool.and_self, if_true]
  rw [headD_uniformCoords x0 dx nx (by omega), headD_uniformCoords y0 dy ny (by omega)]

theorem regenCoords_roundtrip (x0 dx : ℚ) (n : Nat) :
    regenCoords (x0 - dx / 2) dx n = uniformCoords x0 dx n := by
  unfold regenCoords uniformCoords
  apply List.map_congr_left
  intro i _
  ring

theorem hsum_hdiff (xs : List Int) (prev : Int) : hsum (hdiff xs prev) prev = xs := by
  induction xs generalizing prev with
  | nil => rfl
  | cons x xs ih =>
      unfold hdiff hsum
      have he : prev + (x - prev) = x := by ring
      rw [he, ih]

theorem gmlasStep_fields (acc : (String → Option String) × List String)
    (e : String × String) :
    (gmlasStep acc e).1 = Function.update acc.1 e.1 (some e.2) := by
  unfold gmlasStep
  rcases acc.1 e.1 with _ | v <;> rfl

theorem gmlasStep_errors_mono (acc : (String → Option String) × List String)
    (e : String × String) (msg : String) (h : msg ∈ acc.2) :
    msg ∈ (gmlasStep acc e).2 := by
  unfold gmlasStep
  rcases acc.1 e.1 with _ | v
  · exact h
  · exact List.mem_append_left _ h

theorem foldl_gmlasStep_fields (evts : List (String × String))
    (acc : (String → Option String) × List String) (k : String) :
    (evts.foldl gmlasStep acc).1 k =
      (((evts.reverse.filter (fun e => e.1 = k)).map Prod.snd).head?).or (acc.1 k) := by
  induction evts using List.reverseRecOn with
  | nil => simp
  | append_singleton evts e ih =>
      rw [List.foldl_append, List.foldl_cons, List.foldl_nil]
      rw [gmlasStep_fields]
      by_cases hk : e.1 = k
      · rw [hk, Function.update_same]
        rw [List.reverse_append]
        simp only [List.reverse_cons, List.reverse_nil, List.nil_append,
          List.cons_append, List.filter_cons]
        rw [if_pos (by simp [hk])]
        simp
      · rw [Function.update_noteq (by exact fun hc => hk hc.symm)]
        rw [List.reverse_append]
        simp only [List.reverse_cons, List.reverse_nil, List.nil_append,
          List.cons_append, List.filter_cons]
        rw [if_neg (by simp [hk])]
        exact ih

theorem gmlasStep_errors_set (acc : (String → Option String) × List String)
    (e : String × String) (v : String) (h : acc.1 e.1 = some v) :
    (gmlasStep acc e).2 = acc.2 ++ [s!"Unexpected element {e.1}"] := by
  unfold gmlasStep
  rw [h]

theorem processEvents_fields (evts : List (String × String)) (k : String) :
    (processEvents evts).1 k =
      ((evts.reverse.filter (fun e => e.1 = k)).map Prod.snd).head? := by
  unfold processEvents
  rw [foldl_gmlasStep_fields]
  simp

theorem processEvents_error (evts : List (String × String)) (k : String) :
    2 ≤ (evts.filter (fun e => e.1 = k)).length →
      s!"Unexpected element {k}" ∈ (processEvents evts).2 := by
  unfold processEvents
  induction evts using List.reverseRecOn with
  | nil => intro h2; simp at h2
  | append_singleton evts e ih =>
      intro h2
      rw [List.foldl_append, List.foldl_cons, List.foldl_nil]
      by_cases hk : e.1 = k
      · have hfl : ((evts ++ [e]).filter (fun p => p.1 = k)).length =
            (evts.filter (fun p => p.1 = k)).length + 1 := by
          rw [List.filter_append]
          simp [hk]
        have h1 : 1 ≤ (evts.filter (fun p => p.1 = k)).length := by omega
        have hfe : evts.filter (fun p => p.1 = k) ≠ [] := by
          intro hnil
          rw [hnil] at h1
          simp at h1
        have hne : (List.foldl gmlasStep ((fun _ => none), ([] : List String)) evts).1 e.1 ≠
            none := by
          rw [hk, foldl_gmlasStep_fields]
          simp only [List.filter_reverse, Option.or_none]
          intro hc
          rw [List.head?_eq_none_iff, List.map_eq_nil_iff, List.reverse_eq_nil_iff] at hc
          exact hfe hc
        obtain ⟨v, hv⟩ := Option.ne_none_iff_exists'.mp hne
        rw [gmlasStep_errors_set _ e v hv, hk]
        exact List.mem_append_right _ (List.mem_singleton.mpr rfl)
      · have hfl : (evts ++ [e]).filter (fun p => p.1 = k) =
            evts.filter (fun p => p.1 = k) := by
          rw [List.filter_append]
          simp [hk]
        rw [hfl] at h2
        exact gmlasStep_errors_mono _ e _ (ih h2)

theorem writeDirInfo_trailing (pre : List Nat) (a b : Nat) :
    bandGetBlockSize (writeDirInfo (pre ++ [a, b])) = [b, a] ∧
    mdimGetBlockSize (writeDirInfo (pre ++ [a, b])) = pre ++ [a, b] := by
  constructor
  · unfold bandGetBlockSize writeDirInfo
    have hlen : (pre ++ [a, b]).length = pre.length + 2 := by simp
    have hb : (pre ++ [a, b]).getD ((pre ++ [a, b]).length - 1) 0 = b := by
      rw [hlen]
      have : pre.length + 2 - 1 = pre.length + 1 := by omega
      rw [this]
      rw [List.getD_eq_getElem?_getD, List.getElem?_append_right (by omega)]
      simp
    have ha : (pre ++ [a, b]).getD ((pre ++ [a, b]).length - 2) 0 = a := by
      rw [hlen]
      have : pre.length + 2 - 2 = pre.length := by omega
      rw [this]
      rw [List.getD_eq_getElem?_getD, List.getElem?_append_right (by omega)]
      simp
    rw [hb, ha]
  · rfl

/-- C1: for every valid `(blockSize, arraySize)` pair — block size dividing
the array size or not, including a truncated trailing block — writing an
array of values and reading the whole array back, through the classic 2D
read or through the multidimensional full read, returns exactly the values
written. -/
theorem claim_C1 {α : Type} (v : Nat → Nat → α) (rows cols bh bw : Nat)
    (hbh : 0 < bh) (hbw : 0 < bw) :
    readPlane (writePlane v rows cols bh bw) bh bw rows cols =
      (List.range rows).map (fun i => (List.range cols).map (fun j => some (v i j))) ∧
    mdimFullRead (writePlane v rows cols bh bw) bh bw rows cols =
      (List.range rows).map (fun i => (List.range cols).map (fun j => some (v i j))) :=
  ⟨readPlane_writePlane v rows cols bh bw hbh hbw,
   mdimFullRead_writePlane v rows cols bh bw hbh hbw⟩

/-- C1 witness: a 5 x 7 plane with 4 x 3 blocks (truncated trailing blocks
in both directions) round-trips. -/
theorem claim_C1_witness :
    (0 < 4 ∧ 0 < 3) ∧
    readPlane (writePlane (fun i j => 10 * i + j) 5 7 4 3) 4 3 5 7 =
      (List.range 5).map (fun i => (List.range 7).map (fun j => some (10 * i + j))) :=
  ⟨⟨by decide, by decide⟩,
   (claim_C1 (fun i j => 10 * i + j) 5 7 4 3 (by decide) (by decide)).1⟩

/-- C2: the number of directories equals the product of the slow-dimension
sizes (for exactly 2 dimensions the count is 1), and the directory at
linear index `k` holds the 2D plane selected by the mixed-radix
decomposition of `k`, first dimension most significant. -/
theorem claim_C2 {α : Type} (v : List Nat → α) (sizes : List Nat) (bh bw : Nat) :
    (writeArray v sizes bh bw).length = dirCount sizes ∧
    dirCount sizes = (slowSizes sizes).prod ∧
    (∀ k, k < dirCount sizes →
      (writeArray v sizes bh bw)[k]? =
        some (writePlane (fun i j => v (decomp (slowSizes sizes) k ++ [i, j]))
          (planeRows sizes) (planeCols sizes) bh bw)) ∧
    (sizes.length = 2 → dirCount sizes = 1) := by
  refine ⟨writeArray_length v sizes bh bw, rfl,
    fun k hk => writeArray_getElem? v sizes bh bw k hk, ?_⟩
  intro h2
  have hslow : (slowSizes sizes).length = 0 := by
    unfold slowSizes
    simp [List.length_dropLast, h2]
  have : slowSizes sizes = [] := List.eq_nil_of_length_eq_zero hslow
  unfold dirCount
  rw [this]
  rfl

/-- C2 witness: the 4D test shape `(2, 3, 4, 5)` has `2 * 3 = 6`
directories and directory 4 holds the plane of slow tuple `decomp [2,3] 4 =
[1, 1]`. -/
theorem claim_C2_witness :
    4 < dirCount [2, 3, 4, 5] ∧
    (writeArray (fun t => t) [2, 3, 4, 5] 2 3)[4]? =
      some (writePlane (fun i j => decomp (slowSizes [2, 3, 4, 5]) 4 ++ [i, j])
        (planeRows [2, 3, 4, 5]) (planeCols [2, 3, 4, 5]) 2 3) :=
  ⟨by decide, (claim_C2 (fun t => t) [2, 3, 4, 5] 2 3).2.2.1 4 (by decide)⟩

/-- C4: a scalar attribute serializes to `key=value`, a vector attribute to
the comma-joined values, an unset string attribute to the literal `null`,
and both the 2D reader's `GetMetadataItem` and the multidimensional
reader's `ReadAsString` return exactly these literal forms after reopen. -/
theorem claim_C4 (attrs : List (String × AttrValue)) (k : String) (v : AttrValue)
    (hmem : (k, v) ∈ attrs) (hnd : (attrs.map Prod.fst).Nodup) :
    getMetadataItem (writeAttrs attrs) k = some (serializeAttr v) ∧
    attrReadAsString (writeAttrs attrs) k = some (serializeAttr v) ∧
    (∀ x : Int, serializeAttr (AttrValue.int x) = toString x) ∧
    (∀ s : String, serializeAttr (AttrValue.text s) = s) ∧
    (∀ vs : List Int,
      serializeAttr (AttrValue.intVec vs) = String.intercalate "," (vs.map toString)) ∧
    (∀ ss : List String, serializeAttr (AttrValue.textVec ss) = String.intercalate "," ss) ∧
    serializeAttr AttrValue.unsetText = "null" :=
  ⟨mdLookup_writeAttrs attrs k v hmem hnd, mdLookup_writeAttrs attrs k v hmem hnd,
   fun _ => rfl, fun _ => rfl, fun _ => rfl, fun _ => rfl, rfl⟩

/-- C4 witness: the attribute set of the test round-trips; the unset string
attribute reads back as the literal `null`. -/
theorem claim_C4_witness :
    ("att_text_null", AttrValue.unsetText) ∈ testAttrs ∧
    getMetadataItem (writeAttrs testAttrs) "att_text_null" =
      some (serializeAttr AttrValue.unsetText) :=
  ⟨by decide,
   (claim_C4 testAttrs "att_text_null" AttrValue.unsetText (by decide) (by decide)).1⟩

/-- C5: scale, offset, unit and nodata set on the multidimensional array
map one-to-one onto the per-band equivalents: after reopen both the classic
band accessors and the multidimensional accessors return exactly the values
set. -/
theorem claim_C5 (s : RasterScalars) :
    (bandScalars (persistScalars s)).scale = s.scale ∧
    (bandScalars (persistScalars s)).offset = s.offset ∧
    (bandScalars (persistScalars s)).unit = s.unit ∧
    (bandScalars (persistScalars s)).nodata = s.nodata ∧
    (mdimScalars (persistScalars s)).scale = s.scale ∧
    (mdimScalars (persistScalars s)).offset = s.offset ∧
    (mdimScalars (persistScalars s)).unit = s.unit ∧
    (mdimScalars (persistScalars s)).nodata = s.nodata :=
  ⟨rfl, rfl, rfl, rfl, rfl, rfl, rfl, rfl⟩

/-- C6: a strided read with per-axis step 1, step greater than 1, or
negative step returns exactly the NumPy-equivalent strided slice of the
reference array; for a negative step the given origin is itself the
coordinate of the first emitted sample. -/
theorem claim_C6 {α : Type} (v : Nat → Nat → α) (rows cols bh bw : Nat)
    (oy ox : Int) (cy cx : Nat) (sy sx : Int)
    (hbh : 0 < bh) (hbw : 0 < bw)
    (hy : ∀ m : Nat, m < cy → 0 ≤ oy + m * sy ∧ oy + m * sy < rows)
    (hx : ∀ n : Nat, n < cx → 0 ≤ ox + n * sx ∧ ox + n * sx < cols) :
    stridedRead (writePlane v rows cols bh bw) bh bw oy ox cy cx sy sx =
      numpySlice2D v oy ox cy cx sy sx ∧
    (0 < cy → 0 < cx →
      (((stridedRead (writePlane v rows cols bh bw) bh bw oy ox cy cx sy sx).headD
        []).headD none) = some (v oy.toNat ox.toNat)) := by
  have hmain := stridedRead_writePlane v rows cols bh bw oy ox cy cx sy sx hbh hbw hy hx
  refine ⟨hmain, fun hcy hcx => ?_⟩
  rw [hmain]
  obtain ⟨m, rfl⟩ : ∃ m, cy = m + 1 := ⟨cy - 1, by omega⟩
  obtain ⟨n, rfl⟩ : ∃ n, cx = n + 1 := ⟨cx - 1, by omega⟩
  unfold numpySlice2D
  rw [show List.range (m + 1) = 0 :: (List.range m).map Nat.succ from List.range_succ_eq_map m]
  simp only [List.map_cons, List.headD_cons]
  rw [show List.range (n + 1) = 0 :: (List.range n).map Nat.succ from List.range_succ_eq_map n]
  simp only [List.map_cons, List.headD_cons]
  norm_num

/-- C6 witness: the negative-step read of the test shape (origin at the
last sample of each axis, steps `(-2, -3)`) matches the NumPy slice on a
5 x 7 plane with 4 x 3 blocks. -/
theorem claim_C6_witness :
    (∀ m : Nat, m < 2 → 0 ≤ (4 : Int) + m * (-2) ∧ (4 : Int) + m * (-2) < 5) ∧
    stridedRead (writePlane (fun i j => 10 * i + j) 5 7 4 3) 4 3 4 6 2 2 (-2) (-3) =
      numpySlice2D (fun i j => 10 * i + j) 4 6 2 2 (-2) (-3) :=
  ⟨by decide,
   (claim_C6 (fun i j => 10 * i + j) 5 7 4 3 4 6 2 2 (-2) (-3)
     (by decide) (by decide) (by decide) (by decide)).1⟩

/-- C3: directory 0's record carries the full per-dimension schema (NAME,
SIZE, BLOCK_SIZE, TYPE/DIRECTION when set, DATATYPE and the comma-joined
VALUES when a small indexing variable exists) for every dimension plus
VARIABLE_NAME; every directory `k > 0` carries exactly NAME, IDX (the
zero-based slow-axis index from the mixed-radix decomposition of `k`) and
VAL (the indexing-variable value at that index) per slow dimension plus
VARIABLE_NAME and nothing else; with exactly 2 dimensions there is a single
record and no IDX/VAL key is emitted at all. -/
theorem claim_C3 (dims : List DimDesc) (varName : String) :
    (0 < dirCount (dims.map DimDesc.size) →
      (metadataRecords dims varName)[0]? = some (fullRecord dims varName)) ∧
    (∀ j d, dims[j]? = some d →
      mdLookup (fullRecord dims varName) (MDKey.dim j "NAME") = some d.name ∧
      mdLookup (fullRecord dims varName) (MDKey.dim j "SIZE") = some (toString d.size) ∧
      mdLookup (fullRecord dims varName) (MDKey.dim j "BLOCK_SIZE") =
        some (toString d.blockSize) ∧
      (d.type ≠ "" →
        mdLookup (fullRecord dims varName) (MDKey.dim j "TYPE") = some d.type) ∧
      (d.direction ≠ "" →
        mdLookup (fullRecord dims varName) (MDKey.dim j "DIRECTION") = some d.direction) ∧
      (∀ dt vals, d.indexing = some (dt, vals) → vals.length = d.size →
        mdLookup (fullRecord dims varName) (MDKey.dim j "DATATYPE") = some dt ∧
        mdLookup (fullRecord dims varName) (MDKey.dim j "VALUES") =
          some (String.intercalate "," (vals.map toString)))) ∧
    mdLookup (fullRecord dims varName) MDKey.variableName = some varName ∧
    (∀ k, 0 < k → k < dirCount (dims.map DimDesc.size) →
      (metadataRecords dims varName)[k]? =
        some (deltaRecord dims (decomp (slowSizes (dims.map DimDesc.size)) k) varName)) ∧
    (∀ t : List Nat,
      (∀ key, key ∈ (deltaRecord dims t varName).map Prod.fst →
        key = MDKey.variableName ∨
        ∃ i f, i < ((slowDims dims).zip t).length ∧
          f ∈ (["NAME", "IDX", "VAL"] : List String) ∧ key = MDKey.dim i f) ∧
      (∀ j d idx, (slowDims dims)[j]? = some d → t[j]? = some idx →
        mdLookup (deltaRecord dims t varName) (MDKey.dim j "NAME") = some d.name ∧
        mdLookup (deltaRecord dims t varName) (MDKey.dim j "IDX") = some (toString idx) ∧
        (∀ dt vals, d.indexing = some (dt, vals) →
          mdLookup (deltaRecord dims t varName) (MDKey.dim j "VAL") =
            some (toString (vals.getD idx 0)))) ∧
      mdLookup (deltaRecord dims t varName) MDKey.variableName = some varName) ∧
    (dims.length = 2 →
      metadataRecords dims varName = [fullRecord dims varName] ∧
      ∀ i, MDKey.dim i "IDX" ∉ (fullRecord dims varName).map Prod.fst ∧
        MDKey.dim i "VAL" ∉ (fullRecord dims varName).map Prod.fst) := by
  refine ⟨?_, ?_, fullRecord_varName dims varName, ?_, ?_, ?_⟩
  · intro hpos
    exact metadataRecords_zero dims varName hpos
  · intro j d hj
    have hred := fullRecord_dim_lookup dims varName j d
    obtain ⟨h1, h2, h3, h4, h5, h6⟩ := fullDimRecord_lookups j d
    refine ⟨?_, ?_, ?_, ?_, ?_, ?_⟩
    · rw [hred "NAME" hj]; exact h1
    · rw [hred "SIZE" hj]; exact h2
    · rw [hred "BLOCK_SIZE" hj]; exact h3
    · intro ht; rw [hred "TYPE" hj]; exact h4 ht
    · intro hd; rw [hred "DIRECTION" hj]; exact h5 hd
    · intro dt vals hiv hlen
      obtain ⟨ha, hb⟩ := h6 dt vals hiv hlen
      constructor
      · rw [hred "DATATYPE" hj]; exact ha
      · rw [hred "VALUES" hj]; exact hb
  · intro k hk0 hklt
    obtain ⟨k', rfl⟩ : ∃ k', k = k' + 1 := ⟨k - 1, by omega⟩
    exact metadataRecords_pos dims varName k' hklt
  · intro t
    refine ⟨?_, ?_, deltaRecord_varName dims t varName⟩
    · intro key hkey
      unfold deltaRecord at hkey
      rw [List.map_append, List.mem_append] at hkey
      rcases hkey with hkey | hkey
      · obtain ⟨j, f, hj0, hjlt, hf, hk⟩ := deltaRecAux_keys 0 _ key hkey
        right
        exact ⟨j, f, by simpa using hjlt, hf, hk⟩
      · left
        simpa using hkey
    · intro j d idx hd ht
      have hred := deltaRecord_dim_lookup dims t varName j d idx
      obtain ⟨h1, h2, h3⟩ := deltaDimRecord_lookups j d idx
      refine ⟨?_, ?_, ?_⟩
      · rw [hred "NAME" hd ht]; exact h1
      · rw [hred "IDX" hd ht]; exact h2
      · intro dt vals hiv
        rw [hred "VAL" hd ht]; exact h3 dt vals hiv
  · intro h2
    have hslow : slowSizes (dims.map DimDesc.size) = [] := by
      apply List.eq_nil_of_length_eq_zero
      unfold slowSizes
      simp [List.length_dropLast, h2]
    constructor
    · unfold metadataRecords
      rw [hslow]
      rfl
    · intro i
      constructor
      · intro hmem
        unfold fullRecord at hmem
        rw [List.map_append, List.mem_append] at hmem
        rcases hmem with hmem | hmem
        · obtain ⟨j, f, _, _, hf, hk⟩ := fullRecAux_keys 0 dims _ hmem
          injection hk with e1 e2
          subst e2
          simp at hf
        · simp at hmem
      · intro hmem
        unfold fullRecord at hmem
        rw [List.map_append, List.mem_append] at hmem
        rcases hmem with hmem | hmem
        · obtain ⟨j, f, _, _, hf, hk⟩ := fullRecAux_keys 0 dims _ hmem
          injection hk with e1 e2
          subst e2
          simp at hf
        · simp at hmem

/-- C3 witness: on the 3D example the second directory's record is the
position-only record at the decomposed slow tuple. -/
theorem claim_C3_witness :
    (0 < 1 ∧ 1 < dirCount (dims3ex.map DimDesc.size)) ∧
    (metadataRecords dims3ex "myarray")[1]? =
      some (deltaRecord dims3ex (decomp (slowSizes (dims3ex.map DimDesc.size)) 1)
        "myarray") :=
  ⟨⟨by decide, by decide⟩,
   (claim_C3 dims3ex "myarray").2.2.2.1 1 (by decide) (by decide)⟩

/-- C7: for uniformly spaced coordinate arrays `x_i = x0 + i*dx` and
`y_j = y0 + j*dy` (dy of either sign), the derived geotransform is
`(x0 - dx/2, dx, 0, y0 - dy/2, 0, dy)`, regenerating the indexing arrays
from it reproduces the original coordinates, and the axes classify as
HORIZONTAL_X/EAST and HORIZONTAL_Y/NORTH. -/
theorem claim_C7 (x0 dx y0 dy : ℚ) (nx ny : Nat) (hnx : 2 ≤ nx) (hny : 2 ≤ ny) :
    deriveGeoTransform (uniformCoords x0 dx nx) (uniformCoords y0 dy ny) =
      some ⟨x0 - dx / 2, dx, 0, y0 - dy / 2, 0, dy⟩ ∧
    regenCoords (x0 - dx / 2) dx nx = uniformCoords x0 dx nx ∧
    regenCoords (y0 - dy / 2) dy ny = uniformCoords y0 dy ny ∧
    classifyAxes ⟨x0 - dx / 2, dx, 0, y0 - dy / 2, 0, dy⟩ =
      some (("HORIZONTAL_X", "EAST"), ("HORIZONTAL_Y", "NORTH")) := by
  refine ⟨deriveGeoTransform_uniform x0 dx y0 dy nx ny hnx hny,
    regenCoords_roundtrip x0 dx nx, regenCoords_roundtrip y0 dy ny, ?_⟩
  unfold classifyAxes
  simp

/-- C7 witness: the test's coordinates (x spacing 1/10, negative y spacing
-1/5, 10 x 5 samples) derive the expected transform. -/
theorem claim_C7_witness :
    (2 ≤ 10 ∧ 2 ≤ 5) ∧
    deriveGeoTransform (uniformCoords (2 + 1/20) (1/10) 10)
        (uniformCoords (49 - 1/10) (-(1/5)) 5) =
      some ⟨2 + 1/20 - (1/10) / 2, 1/10, 0, 49 - 1/10 - (-(1/5)) / 2, 0, -(1/5)⟩ :=
  ⟨⟨by decide, by decide⟩,
   (claim_C7 (2 + 1/20) (1/10) (49 - 1/10) (-(1/5)) 10 5 (by decide) (by decide)).1⟩

/-- C8: reopening reports COMPRESSION equal to the requested codec through
both readers, PREDICTOR equals "2" when predictor 2 was requested, and the
tuning level is write-time-only: decoding inverts encoding for every
level. -/
theorem claim_C8 (codec : String) (p : Option Nat) (level : Option Nat)
    (pred : Nat) (b : List Int) :
    mdLookup (imageStructureMetadata (createWithCodec codec p level)) "COMPRESSION" =
      some codec ∧
    mdLookup (structuralInfo (createWithCodec codec p level)) "COMPRESSION" = some codec ∧
    (p = some 2 →
      mdLookup (imageStructureMetadata (createWithCodec codec p level)) "PREDICTOR" =
        some "2" ∧
      mdLookup (structuralInfo (createWithCodec codec p level)) "PREDICTOR" = some "2") ∧
    decodeBlock pred (encodeBlock level pred b) = b := by
  refine ⟨?_, ?_, ?_, ?_⟩
  · simp [imageStructureMetadata, createWithCodec, mdLookup]
  · simp [structuralInfo, imageStructureMetadata, createWithCodec, mdLookup]
  · intro hp
    subst hp
    constructor <;>
      · simp [structuralInfo, imageStructureMetadata, createWithCodec, mdLookup]
        decide
  · by_cases hpred : pred = 2
    · simp [encodeBlock, decodeBlock, hpred, hsum_hdiff]
    · simp [encodeBlock, decodeBlock, hpred]

/-- C9: on an unexpected repeated single-valued element the GMLAS reader
keeps the value of the last occurrence (last write wins) and emits an
`Unexpected element` error. -/
theorem claim_C9 (evts : List (String × String)) (k : String) :
    (processEvents evts).1 k =
      ((evts.filter (fun e => e.1 = k)).map Prod.snd).getLast? ∧
    (2 ≤ (evts.filter (fun e => e.1 = k)).length →
      s!"Unexpected element {k}" ∈ (processEvents evts).2) := by
  constructor
  · rw [processEvents_fields, List.getLast?_eq_head?_reverse]
    simp [List.filter_reverse, List.map_reverse]
  · exact processEvents_error evts k

/-- C9 witness: on the test document the field reads back `foo_again` and
the `Unexpected element` error is present. -/
theorem claim_C9_witness :
    2 ≤ (gmlasEvts.filter (fun e => e.1 = gmlasKey)).length ∧
    (processEvents gmlasEvts).1 gmlasKey = some "foo_again" ∧
    s!"Unexpected element {gmlasKey}" ∈ (processEvents gmlasEvts).2 :=
  ⟨by decide,
   by rw [(claim_C9 gmlasEvts gmlasKey).1]; decide,
   (claim_C9 gmlasEvts gmlasKey).2 (by decide)⟩

/-- C10: the two views of a directory report block sizes in opposite
orders: the multidimensional `GetBlockSize` returns the block sizes in
dimension order, while the classic band `GetBlockSize` returns block width
first, then block height — the reversal of the two trailing entries. -/
theorem claim_C10 (pre : List Nat) (a b : Nat) :
    mdimGetBlockSize (writeDirInfo (pre ++ [a, b])) = pre ++ [a, b] ∧
    bandGetBlockSize (writeDirInfo (pre ++ [a, b])) = [b, a] := by
  obtain ⟨h1, h2⟩ := writeDirInfo_trailing pre a b
  exact ⟨h2, h1⟩

end GTiffMDim
